import Mathlib

/-!
Shallow embedding of the `douban.py` metadata-source plugin
(`src/douban/douban.py`) and proofs about it.

External dependencies of the plugin (the calibre host application's
`check_isbn`, tokenizers, metadata cleaning, HTTP browser, JSON and regex
libraries) are abstracted as parameters collected in an `Env` structure;
everything the plugin's own code does (control flow, string assembly,
caching, queueing, retries) is modelled directly, and Python string
primitives (`strip`, `split`, `join`, substring `find`) are given
executable list-of-characters models.
-/

set_option autoImplicit false

namespace Douban

/-! ## Models of Python string primitives -/

/-- Whitespace test used to model Python `str.strip`. -/
def wsChar (c : Char) : Bool := c.isWhitespace

/-- List-level model of Python `str.strip`: drop whitespace from both ends. -/
def stripData (l : List Char) : List Char :=
  ((l.dropWhile wsChar).reverse.dropWhile wsChar).reverse

/-- Model of Python `str.strip`. -/
def pyStrip (s : String) : String := ⟨stripData s.data⟩

/-- Model of Python `' '.join(parts)`. -/
def joinSpace : List String → String
  | [] => ""
  | [x] => x
  | x :: y :: xs => x ++ " " ++ joinSpace (y :: xs)

/-- Helper for `pySplitChar`: accumulate the current field (reversed). -/
def splitCharAux (c : Char) : List Char → List Char → List String
  | [], acc => [⟨acc.reverse⟩]
  | x :: xs, acc =>
    if x = c then (⟨acc.reverse⟩ : String) :: splitCharAux c xs []
    else splitCharAux c xs (x :: acc)

/-- Model of Python `s.split(sep)` for a one-character separator `sep`
(explicit separator: empty fields are kept, the result is never empty). -/
def pySplitChar (c : Char) (s : String) : List String :=
  splitCharAux c s.data []

/-- Whether `pat` occurs at the start of `l`. -/
def isPre : List Char → List Char → Bool
  | [], _ => true
  | _ :: _, [] => false
  | a :: as, b :: bs => a = b && isPre as bs

/-- Whether `pat` occurs somewhere inside `l`. -/
def hasSub (pat : List Char) : List Char → Bool
  | [] => pat.isEmpty
  | c :: rest => isPre pat (c :: rest) || hasSub pat rest

/-- Model of `s.find(pat) != -1` (substring containment). -/
def strContains (s pat : String) : Bool := hasSub pat.data s.data

/-! ## Association lists modelling Python dicts -/

/-- Model of `d.get(k, None)` on a Python dict represented as an
association list (most recent binding first). -/
def alLookup (l : List (String × String)) (k : String) : Option String :=
  (l.find? (fun p => p.1 = k)).map (fun p => p.2)

/-- Model of `d[k] = v`: the new binding shadows any older one. -/
def alInsert (k v : String) (l : List (String × String)) : List (String × String) :=
  (k, v) :: l

/-! ## `get_details` (module-level function, lines 24-35) -/

/-- A raised HTTP exception; `code` is what `e.getcode()` returns, with
`-1` standing for an exception object that has no `getcode` attribute
(the `getattr(e, 'getcode', lambda: -1)` default). -/
structure HttpErr where
  code : Int
  deriving Repr, DecidableEq

/-- Observable outcome of one `get_details` call: the returned body or
re-raised exception, how many HTTP GETs were issued, and whether the
throttling sleep ran. -/
structure DetailsRun where
  result : Except HttpErr String
  numGets : Nat
  slept : Bool
  deriving Repr

/-- Model of `get_details(browser, url, timeout)`.  `fetch1` is the outcome
of the first `browser.open_novisit(url).read()` and `fetch2` the outcome
of the same GET when attempted a second time. -/
def get_details (fetch1 fetch2 : Except HttpErr String) : DetailsRun :=
  match fetch1 with
  | .ok raw => ⟨.ok raw, 1, false⟩
  | .error e =>
    if e.code ≠ 403 then ⟨.error e, 1, false⟩
    else ⟨fetch2, 2, true⟩

/-! ## Claim C1 -/

/-- C1: if the first GET of `get_details` raises with status 403, the
function sleeps and retries the same GET exactly once (two GETs in all),
returning the retry's body when the retry succeeds; if the first GET
raises with any status other than 403 the error is re-raised at once,
with a single GET and no sleep. -/
theorem get_details_retry_on_403 (fetch2 : Except HttpErr String) (e : HttpErr) :
    (e.code = 403 →
      get_details (.error e) fetch2 = ⟨fetch2, 2, true⟩ ∧
      (∀ raw : String, fetch2 = .ok raw →
        (get_details (.error e) fetch2).result = .ok raw)) ∧
    (e.code ≠ 403 →
      get_details (.error e) fetch2 = ⟨.error e, 1, false⟩) := by
  constructor
  · intro h403
    constructor
    · simp [get_details, h403]
    · intro raw hraw
      simp [get_details, h403, hraw]
  · intro hne
    simp [get_details, hne]

/-- C1 witness: concrete 403 retry and a concrete 500 re-raise. -/
theorem get_details_retry_on_403_witness :
    (get_details (.error ⟨403⟩) (.ok "body") = ⟨.ok "body", 2, true⟩ ∧
      (∀ raw : String, (Except.ok "body" : Except HttpErr String) = .ok raw →
        (get_details (.error ⟨403⟩) (.ok "body")).result = .ok raw)) ∧
    get_details (.error ⟨500⟩) (.ok "body") = ⟨.error ⟨500⟩, 1, false⟩ := by
  refine ⟨(get_details_retry_on_403 (.ok "body") ⟨403⟩).1 (by decide), ?_⟩
  exact (get_details_retry_on_403 (.ok "body") ⟨500⟩).2 (by decide)

/-! ## Data model -/

/-- The slice of calibre's `Metadata` object that `douban.py` reads or
writes.  `douban_id` is `identifiers['douban']` (always set together with
the title); setting `isbn` also surfaces in the identifiers map, as in
calibre. -/
structure Metadata where
  title : String
  douban_id : String
  language : Option String := none
  publisher : Option String := none
  subtitle : Option String := none
  authors : List String := []
  comments : Option String := none
  isbn : Option String := none
  all_isbns : List String := []
  tags : List String := []
  pubdate : Option String := none
  rating : Option Rat := none
  /-- `some v` models the attribute having been assigned (with `v` itself
  optional, since the code first sets it to `None`); `none` models the
  attribute never having been assigned at all, in which case reading it on
  a calibre `Metadata` object raises `AttributeError` — this matters in
  `get_all_details`, which reads it without a `getattr` default. -/
  has_douban_cover : Option (Option String) := none
  series : Option String := none
  source_relevance : Option Nat := none
  deriving Repr, DecidableEq

/-- The identifiers dict of a metadata record: `douban` always present,
`isbn` present when `mi.isbn` was assigned (calibre stores it in
`identifiers`). -/
def metaIdentifiers (m : Metadata) : List (String × String) :=
  match m.isbn with
  | some i => [("douban", m.douban_id), ("isbn", i)]
  | none => [("douban", m.douban_id)]

/-- The plugin-visible mutable state: the host's ISBN→catalog-ID and
catalog-ID→cover-URL caches, and the result queue (FIFO as a list). -/
structure DState where
  isbnMap : List (String × String) := []
  coverMap : List (String × String) := []
  queue : List Metadata := []
  deriving Repr, DecidableEq

/-- The value `isbn(extra)[0]` extracted from a detail page: the lxml
XPath result element is either a single string or a list of strings
(the code checks `isinstance(isbn, (str, bytes))`). -/
inductive IsbnVal where
  | s (v : String)
  | l (vs : List String)
  deriving Repr, DecidableEq

/-- Abstraction of a successfully fetched and parsed detail page: the
results of the XPath queries `to_metadata` runs against it. -/
structure DetailPage where
  /-- serialized `//div[@id="info"]` elements (indexing `[0]` raises if empty) -/
  infoDivs : List String := []
  /-- `//meta[@property="book:author"]/@content` -/
  authorsMeta : List String := []
  /-- `string(//div[@class="intro"])` -/
  descriptionStr : String := ""
  /-- `//meta[@property="og:image"]/@content` (indexing `[0]` raises if empty) -/
  coverMeta : List String := []
  /-- `//meta[@property="book:isbn"]/@content` (indexing `[0]` raises if empty) -/
  isbnMeta : List IsbnVal := []
  /-- the `.text` of each `//strong[@property="v:average"]` element
  (`none` models a `None` text; indexing `[0]` raises if empty) -/
  ratingTexts : List (Option String) := []
  /-- `string(//div[@id="db-tags-section"]//div[@class="indent"])` -/
  tagsStr : String := ""
  deriving Repr, DecidableEq

/-- Parsed search response: `items` is `j['items']` when the key is
present; `whole` is the whole JSON value, appended as the single entry
when `items` is absent. -/
structure SearchJson where
  items : Option (List String) := none
  whole : String := ""
  deriving Repr, DecidableEq

/-- Everything `douban.py` gets from outside its own code: calibre
helpers, the HTTP browser, and the regex/XPath extractions whose pattern
semantics we do not re-implement. -/
structure Env where
  /-- calibre's `check_isbn`: the cleaned ISBN when valid, else `None`. -/
  checkIsbn : String → Option String
  /-- `self.get_title_tokens(title)` as a list. -/
  titleTokens : Option String → List String
  /-- `self.get_author_tokens(authors, only_first_author=True)` as a list. -/
  authorTokens : Option (List String) → List String
  /-- `urlencode({'q': q})`. -/
  urlencodeQ : String → String
  /-- the search GET `br.open_novisit(query).read()`; an error carries
  `as_unicode(e)`. -/
  searchFetch : String → Except String String
  /-- `json.loads(raw)`; an error carries `as_unicode(e)`. -/
  parseJson : String → Except String SearchJson
  /-- the entry regex of `to_metadata`: groups `(href, title, sid)` of the
  search-result anchor, `none` when the regex does not match (so that
  `result.group(...)` raises). -/
  extractEntry : String → Option (String × String × String)
  /-- `get_details` + `raw.decode('utf-8')` + `etree.HTML` + `entry(feed)[0]`
  for a detail-page URL (the body of the `try` in `to_metadata`). -/
  fetchParse : String → Except Unit DetailPage
  /-- the `出版社` regex: `group(2)` when it matches the info div. -/
  findPublisher : String → Option String
  /-- the `副标题` regex: `group(1)` when it matches the info div. -/
  findSubtitle : String → Option String
  /-- the `出版年` regex: `group(1)` when it matches the info div. -/
  findPubdate : String → Option String
  /-- the `丛书` regex: `group(2)` when it matches the info div. -/
  findSeries : String → Option String
  /-- `parse_date(pubdate, assume_utc=True, default=...)`; `none` models a
  raised exception. -/
  parseDate : String → Option String
  /-- `float(rating_text)`; `none` models a raised `ValueError`. -/
  parseFloat : String → Option Rat
  /-- `self.clean_downloaded_metadata(ans)` (in-place cleanup, modelled
  functionally). -/
  cleanMeta : Metadata → Metadata
  /-- sorting by `self.identify_results_keygen(...)` in `download_cover`. -/
  sortResults : List Metadata → List Metadata
  /-- the cover GET `br.open_novisit(cached_url).read()`. -/
  fetchCover : String → Except Unit String

/-- Python truthiness of the optional `title` argument. -/
def truthyStr : Option String → Bool
  | some t => t ≠ ""
  | none => false

/-- Python truthiness of the optional `authors` argument. -/
def truthyList : Option (List String) → Bool
  | some l => l ≠ []
  | none => false

/-! ## URL constants and `get_book_url` -/

/-- `Douban.BASE_URL`. -/
def BASE_URL : String := "https://www.douban.com/j/search?t=book&p=0&"

/-- `Douban.DOUBAN_BOOK_URL % db`: the `%s` template instantiated at `db`. -/
def doubanBookUrl (db : String) : String :=
  "https://book.douban.com/subject/" ++ db ++ "/"

/-- Model of `Douban.get_book_url(identifiers)` (lines 209-213). -/
def get_book_url (identifiers : List (String × String)) :
    Option (String × String × String) :=
  match alLookup identifiers "douban" with
  | some db => some ("douban", db, doubanBookUrl db)
  | none => none

/-! ## `create_query` (lines 216-248) -/

/-- The inner `build_term(prefix, parts)` helper: joins the parts with
spaces (the first argument is unused in the source too). -/
def build_term (_pre : String) (parts : List String) : String :=
  joinSpace parts

/-- Model of `Douban.create_query(log, title, authors, identifiers)`. -/
def create_query (env : Env) (title : Option String)
    (authors : Option (List String)) (identifiers : List (String × String)) :
    Option String :=
  let isbn := (alLookup identifiers "isbn").bind env.checkIsbn
  let subject := alLookup identifiers "douban"
  let q :=
    match isbn with
    | some i => i
    | none =>
      match subject with
      | some s => s
      | none =>
        if truthyStr title = true ∨ truthyList authors = true then
          let title_tokens := env.titleTokens title
          let q1 := if title_tokens ≠ [] then build_term "title" title_tokens else ""
          let author_tokens := env.authorTokens authors
          if author_tokens ≠ [] then
            q1 ++ (if q1 ≠ "" then " " else "") ++ build_term "author" author_tokens
          else q1
        else ""
  let q2 := pyStrip q
  if q2 = "" then none
  else some (BASE_URL ++ env.urlencodeQ q2)

/-! ## `get_cached_cover_url` (lines 309-319) -/

/-- Model of `Douban.get_cached_cover_url(identifiers)`: resolve a douban
ID directly or via the ISBN cache, then look the ID up in the cover
cache. -/
def get_cached_cover_url (isbnMap coverMap : List (String × String))
    (identifiers : List (String × String)) : Option String :=
  let db :=
    match alLookup identifiers "douban" with
    | some d => some d
    | none =>
      match alLookup identifiers "isbn" with
      | some i => alLookup isbnMap i
      | none => none
  match db with
  | some d => alLookup coverMap d
  | none => none

/-! ## `to_metadata` (lines 84-205) -/

/-- Length-based order used by `sorted(isbns, key=len)`. -/
def lenLe (a b : String) : Prop := a.length ≤ b.length

instance : DecidableRel lenLe :=
  fun a b => inferInstanceAs (Decidable (a.length ≤ b.length))

/-- Model of `sorted(isbns, key=len)`: a stable sort by length. -/
def sortedByLen (l : List String) : List String := List.insertionSort lenLe l

/-- Outcome of one `to_metadata` call: the Python return value (`.error`
models an uncaught exception, `.ok none` the silent discard of an entry
without title) and the detail-page URLs fetched during the call. -/
structure ToMetaRun where
  res : Except Unit (Option Metadata)
  fetched : List String
  deriving Repr

/-- Model of `Douban.to_metadata(browser, log, entry_, timeout)`.

The Python code assigns the fields of `mi` one by one; since no
assignment reads a previously assigned field and a partially assigned
`mi` never escapes (any exception raised between assignments propagates
to the caller, which drops the record), the record is built here in one
literal.  The empty-XPath-result checks (`[0]` indexing of the info div,
cover, ISBN and rating queries), each of which raises in Python, are
performed up front; all of them produce the same observable outcome. -/
def to_metadata (env : Env) (entry_ : String) : ToMetaRun :=
  match env.extractEntry entry_ with
  | none => ⟨.error (), []⟩
  | some (details_url, title, douban_id) =>
    if title = "" then ⟨.ok none, []⟩
    else
      match env.fetchParse details_url with
      | .error _ =>
        ⟨.ok (some { title := title, douban_id := douban_id,
                     language := some "Chinese" }), [details_url]⟩
      | .ok page =>
        match page.infoDivs, page.coverMeta, page.isbnMeta,
            page.ratingTexts with
        | [], _, _, _ => ⟨.error (), [details_url]⟩
        | _, [], _, _ => ⟨.error (), [details_url]⟩
        | _, _, [], _ => ⟨.error (), [details_url]⟩
        | _, _, _, [] => ⟨.error (), [details_url]⟩
        | info :: _, cover_url :: _, iv :: _, rt :: _ =>
          let isbns := match iv with
            | .s v => if (env.checkIsbn v).isSome then [v] else []
            | .l vs => vs.filter (fun x => (env.checkIsbn x).isSome)
          ⟨.ok (some {
            title := title
            douban_id := douban_id
            language := some "Chinese"
            publisher := match env.findPublisher info with
              | some p => some (pyStrip p)
              | none => none
            subtitle := match env.findSubtitle info with
              | some s0 => some (pyStrip s0)
              | none => none
            authors := match page.authorsMeta with
              | [] => ["Unknown"]
              | a :: _ => pySplitChar '、' a
            comments := some page.descriptionStr
            isbn := if isbns = [] then none
                    else some ((sortedByLen isbns).getLastD "")
            all_isbns := isbns
            tags := ((pySplitChar '\n' page.tagsStr).map pyStrip).filter
              (fun t => t ≠ "")
            pubdate := match env.findPubdate info with
              | some p =>
                if p ≠ "" then
                  (match env.parseDate p with
                   | some d => some d
                   | none => none)
                else none
              | none => none
            rating := match rt with
              | none => none
              | some rs =>
                if rs ≠ "" then
                  (match env.parseFloat rs with
                   | some v => some (v / 2)
                   | none => some 0)
                else none
            has_douban_cover := some (
              if cover_url = "" then none
              else if strContains cover_url "book-default" then none
              else some cover_url)
            series := match env.findSeries info with
              | some s0 => some s0
              | none => none }), [details_url]⟩

/-! ## `get_all_details` (lines 323-348) -/

/-- One iteration of the `get_all_details` loop body (the `try` block):
process entry `e` at relevance `rel`, updating caches and queue; a raised
exception or a non-`Metadata` result leaves the state unchanged.

The ISBN caching reads `getattr(ans, 'all_isbns', [])`, which never
raises; the cover check then reads `ans.has_douban_cover` bare, which on
a fetch-failure partial record (attribute never assigned) raises
`AttributeError` inside the `try` — the bare `except` catches it, so
such a record updates no cover cache and is never put on the queue,
while the ISBN-cache writes already made (vacuous for a partial record)
persist. -/
def processEntry (env : Env) (rel : Nat) (e : String) (st : DState) : DState :=
  match (to_metadata env e).res with
  | .ok (some ans0) =>
    let ans := { ans0 with source_relevance := some rel }
    let db := ans.douban_id
    let st1 := { st with
      isbnMap := ans.all_isbns.foldl (fun m i => alInsert i db m) st.isbnMap }
    match ans.has_douban_cover with
    | none => st1
    | some hdc =>
      let st2 := match hdc with
        | some u => { st1 with coverMap := alInsert db u st1.coverMap }
        | none => st1
      { st2 with queue := st2.queue ++ [env.cleanMeta ans] }
  | _ => st

/-- Model of `Douban.get_all_details(br, log, entries, abort, result_queue,
timeout)`.  `rel` is the current `enumerate` counter (the top-level call
uses `0`); `abortAt rel` is the value of `abort.is_set()` sampled after
the entry of relevance `rel` was processed. -/
def get_all_details (env : Env) (abortAt : Nat → Bool) :
    Nat → List String → DState → DState
  | _, [], st => st
  | rel, e :: rest, st =>
    let st1 := processEntry env rel e st
    if abortAt rel then st1
    else get_all_details env abortAt (rel + 1) rest st1

/-! ## `identify` (lines 351-399) -/

/-- The entry list derived from a parsed search response: `j['items']`
when present, else the whole JSON value as the single entry. -/
def entriesOf (j : SearchJson) : List String :=
  match j.items with
  | some l => l
  | none => [j.whole]

/-- Model of `Douban.identify(log, result_queue, abort, title, authors,
identifiers, timeout)`.  Returns the updated state and the Python return
value (an error string, or `None`).  `abortRetry` is the value of
`abort.is_set()` sampled at the empty-result retry check. -/
def identify (env : Env) (abortRetry : Bool) (abortAt : Nat → Bool)
    (st : DState) (title : Option String) (authors : Option (List String))
    (identifiers : List (String × String)) : DState × Option String :=
  match create_query env title authors identifiers with
  | none => (st, none)
  | some query =>
    match env.searchFetch query with
    | .error e => (st, some e)
    | .ok raw =>
      match env.parseJson raw with
      | .error e => (st, some e)
      | .ok j =>
        let entries := entriesOf j
        if h : entries = [] ∧ identifiers ≠ [] ∧ truthyStr title = true ∧
            truthyList authors = true ∧ abortRetry = false then
          identify env abortRetry abortAt st title authors []
        else
          (get_all_details env abortAt 0 entries st, none)
termination_by identifiers.length
decreasing_by
  simp only [List.length_nil]
  exact List.length_pos.mpr h.2.1

/-! ## `download_cover` (lines 252-306) -/

/-- Observable outcome of `download_cover`: whether `identify` was re-run,
which URL (if any) the cover GET was issued against, and the cover payloads
put on the result queue. -/
structure CoverRun where
  ranIdentify : Bool
  fetched : Option String
  covers : List String
  deriving Repr, DecidableEq

/-- The `for mi in results:` scan of `download_cover`: the first cached
cover URL found among the sorted identify results. -/
def scanResults (st : DState) : List Metadata → Option String
  | [] => none
  | mi :: rest =>
    match get_cached_cover_url st.isbnMap st.coverMap (metaIdentifiers mi) with
    | some u => some u
    | none => scanResults st rest

/-- Model of `Douban.download_cover(log, result_queue, abort, title,
authors, identifiers, timeout, get_best_cover)`.  `abort1` is
`abort.is_set()` sampled right after the inner `identify` returns, and
`abort2` the sample at the check before the cover GET. -/
def download_cover (env : Env) (abortRetry : Bool) (abortAt : Nat → Bool)
    (abort1 abort2 : Bool) (title : Option String)
    (authors : Option (List String)) (identifiers : List (String × String))
    (st : DState) : CoverRun :=
  let cached0 := get_cached_cover_url st.isbnMap st.coverMap identifiers
  let step1 : Bool × Bool × Option String :=
    match cached0 with
    | some u => (false, false, some u)
    | none =>
      let stRes := (identify env abortRetry abortAt { st with queue := [] }
        title authors identifiers).1
      if abort1 then (true, true, none)
      else (true, false, scanResults stRes (env.sortResults stRes.queue))
  let ran := step1.1
  let aborted1 := step1.2.1
  let cached := step1.2.2
  if aborted1 then ⟨ran, none, []⟩
  else
    match cached with
    | none => ⟨ran, none, []⟩
    | some u =>
      if abort2 then ⟨ran, none, []⟩
      else
        match env.fetchCover u with
        | .ok cdata =>
          if cdata ≠ "" then ⟨ran, some u, [cdata]⟩ else ⟨ran, some u, []⟩
        | .error _ => ⟨ran, some u, []⟩

/-! ## Lemmas about the string models -/

/-- A clean character list: nonempty, no whitespace at either end. -/
def CleanL (l : List Char) : Prop :=
  l ≠ [] ∧ wsChar (l.headD ' ') = false ∧ wsChar (l.getLastD ' ') = false

/-- A clean token: stripping is the identity and the token is nonempty.
This is what calibre's tokenizers and `check_isbn` return. -/
def cleanStr (s : String) : Prop := pyStrip s = s ∧ s ≠ ""

instance (l : List Char) : Decidable (CleanL l) := by
  unfold CleanL; infer_instance

instance (s : String) : Decidable (cleanStr s) := by
  unfold cleanStr; infer_instance

theorem length_dropWhile_le (p : Char → Bool) (l : List Char) :
    (l.dropWhile p).length ≤ l.length :=
  calc (l.dropWhile p).length
      ≤ (l.takeWhile p).length + (l.dropWhile p).length := Nat.le_add_left _ _
    _ = l.length := by rw [← List.length_append, List.takeWhile_append_dropWhile]

theorem dropWhile_eq_self_of_length (p : Char → Bool) (l : List Char)
    (h : (l.dropWhile p).length = l.length) : l.dropWhile p = l := by
  have h2 := List.takeWhile_append_dropWhile p l
  have h3 : (l.takeWhile p).length = 0 := by
    have h5 := congrArg List.length h2
    rw [List.length_append, h] at h5
    omega
  have h4 : l.takeWhile p = [] := List.eq_nil_of_length_eq_zero h3
  rw [h4, List.nil_append] at h2
  exact h2

theorem length_stripData_le (l : List Char) :
    (stripData l).length ≤ (l.dropWhile wsChar).length := by
  unfold stripData
  rw [List.length_reverse]
  calc ((l.dropWhile wsChar).reverse.dropWhile wsChar).length
      ≤ (l.dropWhile wsChar).reverse.length := length_dropWhile_le _ _
    _ = (l.dropWhile wsChar).length := List.length_reverse _

/-- On a clean list, the model of `strip` is the identity. -/
theorem stripData_of_clean (l : List Char) (h : CleanL l) : stripData l = l := by
  obtain ⟨hne, hhead, hlast⟩ := h
  obtain ⟨a, t, rfl⟩ := List.exists_cons_of_ne_nil hne
  have hh : wsChar a = false := by simpa using hhead
  have hdrop : (a :: t).dropWhile wsChar = a :: t := by
    simp [List.dropWhile_cons, hh]
  unfold stripData
  rw [hdrop]
  obtain ⟨b, s, hrev⟩ := List.exists_cons_of_ne_nil
    (l := (a :: t).reverse) (by simp)
  have hb : (a :: t).getLastD ' ' = b := by
    rw [List.getLastD_eq_getLast?, ← List.head?_reverse, hrev]
    rfl
  have hbws : wsChar b = false := hb ▸ hlast
  rw [hrev]
  have hbd : (b :: s).dropWhile wsChar = b :: s := by
    simp [List.dropWhile_cons, hbws]
  rw [hbd, ← hrev, List.reverse_reverse]

/-- Conversely, if stripping a nonempty list is the identity, the list is
clean. -/
theorem clean_of_stripData (l : List Char) (hne : l ≠ [])
    (h : stripData l = l) : CleanL l := by
  obtain ⟨a, t, rfl⟩ := List.exists_cons_of_ne_nil hne
  have hlen := congrArg List.length h
  refine ⟨hne, ?_, ?_⟩
  · by_contra hws
    have hh : wsChar a = true := by
      cases hw : wsChar a
      · exact absurd (by simpa using hw) hws
      · rfl
    have hdrop : (a :: t).dropWhile wsChar = t.dropWhile wsChar := by
      simp [List.dropWhile_cons, hh]
    have hle : (stripData (a :: t)).length ≤ t.length :=
      le_trans (length_stripData_le _)
        (hdrop ▸ length_dropWhile_le wsChar t)
    rw [hlen] at hle
    simp at hle
  · -- the dropWhile pass must be the identity, then look at the reverse
    have hdlen : ((a :: t).dropWhile wsChar).length = (a :: t).length := by
      have h1 := length_stripData_le (a :: t)
      have h2 := length_dropWhile_le wsChar (a :: t)
      rw [hlen] at h1
      omega
    have hdrop : (a :: t).dropWhile wsChar = a :: t :=
      dropWhile_eq_self_of_length _ _ hdlen
    have hrevdrop : (a :: t).reverse.dropWhile wsChar = (a :: t).reverse := by
      have h3 : ((a :: t).reverse.dropWhile wsChar).reverse = a :: t := by
        have h4 : stripData (a :: t) = a :: t := h
        unfold stripData at h4
        rw [hdrop] at h4
        exact h4
      have h5 := congrArg List.reverse h3
      rw [List.reverse_reverse] at h5
      exact h5
    obtain ⟨b, s, hrev⟩ := List.exists_cons_of_ne_nil
      (l := (a :: t).reverse) (by simp)
    have hb : (a :: t).getLastD ' ' = b := by
      rw [List.getLastD_eq_getLast?, ← List.head?_reverse, hrev]
      rfl
    rw [hb]
    by_contra hws
    have hh : wsChar b = true := by
      cases hw : wsChar b
      · exact absurd (by simpa using hw) hws
      · rfl
    rw [hrev] at hrevdrop
    have : (b :: s).dropWhile wsChar = s.dropWhile wsChar := by
      simp [List.dropWhile_cons, hh]
    rw [this] at hrevdrop
    have := congrArg List.length hrevdrop
    have hle := length_dropWhile_le wsChar s
    simp at this
    omega

/-- `cleanStr` in terms of character lists. -/
theorem cleanStr_iff_CleanL (s : String) : cleanStr s ↔ CleanL s.data := by
  constructor
  · rintro ⟨hstrip, hne⟩
    have hdata : stripData s.data = s.data := by
      have := congrArg String.data hstrip
      exact this
    have hdne : s.data ≠ [] := by
      intro h
      apply hne
      cases s
      simp at h
      simp [h]
    exact clean_of_stripData _ hdne hdata
  · intro h
    constructor
    · show String.mk (stripData s.data) = s
      rw [stripData_of_clean _ h]
    · intro he
      rw [he] at h
      exact h.1 rfl

theorem headD_append_left {α : Type} (l1 l2 : List α) (d : α) (h : l1 ≠ []) :
    (l1 ++ l2).headD d = l1.headD d := by
  obtain ⟨a, t, rfl⟩ := List.exists_cons_of_ne_nil h
  rfl

theorem getLastD_irrel {α : Type} (l : List α) (d1 d2 : α) (h : l ≠ []) :
    l.getLastD d1 = l.getLastD d2 := by
  rw [List.getLastD_eq_getLast?, List.getLastD_eq_getLast?,
    List.getLast?_eq_getLast l h]
  rfl

theorem getLastD_append_right {α : Type} (l1 l2 : List α) (d : α)
    (h : l2 ≠ []) : (l1 ++ l2).getLastD d = l2.getLastD d := by
  induction l1 generalizing d with
  | nil => rfl
  | cons a t ih =>
    have : (a :: t ++ l2) = a :: (t ++ l2) := rfl
    rw [this, List.getLastD_cons, ih a, getLastD_irrel l2 a d h]

theorem getLastD_mem {α : Type} (l : List α) (d : α) (h : l ≠ []) :
    l.getLastD d ∈ l := by
  rw [List.getLastD_eq_getLast?, List.getLast?_eq_getLast l h]
  simpa using List.getLast_mem h

theorem CleanL_append (l1 l2 : List Char) (h1 : CleanL l1) (h2 : CleanL l2) :
    CleanL (l1 ++ l2) := by
  refine ⟨by simp [h1.1], ?_, ?_⟩
  · rw [headD_append_left _ _ _ h1.1]
    exact h1.2.1
  · rw [getLastD_append_right _ _ _ h2.1]
    exact h2.2.2

/-- Gluing clean lists around an arbitrary middle keeps the ends clean. -/
theorem CleanL_append3 (l1 mid l2 : List Char) (h1 : CleanL l1)
    (h2 : CleanL l2) : CleanL (l1 ++ (mid ++ l2)) := by
  refine ⟨by simp [h1.1], ?_, ?_⟩
  · rw [headD_append_left _ _ _ h1.1]
    exact h1.2.1
  · rw [getLastD_append_right _ _ _ (by simp [h2.1]),
      getLastD_append_right _ _ _ h2.1]
    exact h2.2.2

theorem joinSpace_cons_cons (x y : String) (xs : List String) :
    joinSpace (x :: y :: xs) = x ++ " " ++ joinSpace (y :: xs) := rfl

/-- Joining clean tokens with spaces yields a clean string. -/
theorem CleanL_joinSpace (l : List String) (hl : ∀ t ∈ l, cleanStr t)
    (hne : l ≠ []) : CleanL (joinSpace l).data := by
  induction l with
  | nil => exact absurd rfl hne
  | cons x xs ih =>
    cases xs with
    | nil =>
      exact (cleanStr_iff_CleanL x).mp (hl x (by simp))
    | cons y ys =>
      rw [joinSpace_cons_cons]
      rw [String.data_append, String.data_append]
      have hx := (cleanStr_iff_CleanL x).mp (hl x (by simp))
      have hrest : CleanL (joinSpace (y :: ys)).data :=
        ih (fun t ht => hl t (by simp [ht])) (by simp)
      rw [List.append_assoc]
      exact CleanL_append3 _ _ _ hx hrest

/-- A clean string survives `pyStrip` and is nonempty. -/
theorem pyStrip_of_cleanStr (s : String) (h : cleanStr s) :
    pyStrip s = s ∧ s ≠ "" := ⟨h.1, h.2⟩

theorem cleanStr_joinSpace (l : List String) (hl : ∀ t ∈ l, cleanStr t)
    (hne : l ≠ []) : cleanStr (joinSpace l) :=
  (cleanStr_iff_CleanL _).mpr (CleanL_joinSpace l hl hne)

/-- `' '.join` distributes over list append when both sides are nonempty. -/
theorem joinSpace_append (l1 l2 : List String) (h1 : l1 ≠ []) (h2 : l2 ≠ []) :
    joinSpace (l1 ++ l2) = joinSpace l1 ++ " " ++ joinSpace l2 := by
  induction l1 with
  | nil => exact absurd rfl h1
  | cons x xs ih =>
    cases xs with
    | nil =>
      obtain ⟨y, ys, rfl⟩ := List.exists_cons_of_ne_nil h2
      rfl
    | cons x2 xs2 =>
      have : (x :: x2 :: xs2) ++ l2 = x :: ((x2 :: xs2) ++ l2) := rfl
      rw [this]
      obtain ⟨z, zs, hz⟩ := List.exists_cons_of_ne_nil
        (l := (x2 :: xs2) ++ l2) (by simp)
      rw [hz, joinSpace_cons_cons, ← hz, ih (by simp),
        joinSpace_cons_cons x x2 xs2]
      simp [String.append_assoc]

/-! ## Branch lemmas for `create_query` -/

theorem create_query_isbn_branch (env : Env) (title : Option String)
    (authors : Option (List String)) (ids : List (String × String))
    (i : String) (hb : (alLookup ids "isbn").bind env.checkIsbn = some i)
    (hc : cleanStr i) :
    create_query env title authors ids = some (BASE_URL ++ env.urlencodeQ i) := by
  unfold create_query
  rw [hb]
  simp only
  rw [hc.1]
  simp [hc.2]

theorem create_query_subject_branch (env : Env) (title : Option String)
    (authors : Option (List String)) (ids : List (String × String))
    (s : String) (hb : (alLookup ids "isbn").bind env.checkIsbn = none)
    (hd : alLookup ids "douban" = some s) (hc : cleanStr s) :
    create_query env title authors ids = some (BASE_URL ++ env.urlencodeQ s) := by
  unfold create_query
  rw [hb, hd]
  simp only
  rw [hc.1]
  simp [hc.2]

theorem create_query_tokens_branch (env : Env) (title : Option String)
    (authors : Option (List String)) (ids : List (String × String))
    (hb : (alLookup ids "isbn").bind env.checkIsbn = none)
    (hd : alLookup ids "douban" = none)
    (hTitleTok : ∀ t ∈ env.titleTokens title, cleanStr t)
    (hAuthTok : ∀ t ∈ env.authorTokens authors, cleanStr t)
    (hTitleNone : truthyStr title = false → env.titleTokens title = [])
    (hAuthNone : truthyList authors = false → env.authorTokens authors = [])
    (hne : env.titleTokens title ++ env.authorTokens authors ≠ []) :
    create_query env title authors ids =
      some (BASE_URL ++ env.urlencodeQ
        (joinSpace (env.titleTokens title ++ env.authorTokens authors))) := by
  have hall : ∀ t ∈ env.titleTokens title ++ env.authorTokens authors,
      cleanStr t := by
    intro t ht
    rcases List.mem_append.mp ht with h | h
    · exact hTitleTok t h
    · exact hAuthTok t h
  have hclean := cleanStr_joinSpace _ hall hne
  have htruthy : truthyStr title = true ∨ truthyList authors = true := by
    by_contra hcon
    push_neg at hcon
    have h1 : truthyStr title = false := by
      cases h : truthyStr title
      · rfl
      · exact absurd h hcon.1
    have h2 : truthyList authors = false := by
      cases h : truthyList authors
      · rfl
      · exact absurd h hcon.2
    rw [hTitleNone h1, hAuthNone h2] at hne
    exact hne rfl
  unfold create_query
  rw [hb, hd]
  simp only
  rw [if_pos htruthy]
  by_cases httn : env.titleTokens title = []
  · -- no title tokens: the query is the author tokens alone
    rw [httn] at hne hclean ⊢
    simp only [List.nil_append] at hne hclean ⊢
    rw [if_neg (by simp : ¬([] : List String) ≠ []), if_pos hne,
      if_neg (by simp : ¬("" : String) ≠ ""), String.append_empty,
      String.empty_append]
    simp only [build_term]
    rw [hclean.1]
    simp [hclean.2]
  · -- title tokens present
    have htne : env.titleTokens title ≠ [] := httn
    rw [if_pos htne]
    have hq1 : cleanStr (build_term "title" (env.titleTokens title)) :=
      cleanStr_joinSpace _ hTitleTok htne
    by_cases hatn : env.authorTokens authors = []
    · rw [hatn] at hclean ⊢
      simp only [List.append_nil] at hclean ⊢
      rw [if_neg (by simp : ¬([] : List String) ≠ [])]
      simp only [build_term] at hq1 ⊢
      rw [hclean.1]
      simp [hclean.2]
    · have hane : env.authorTokens authors ≠ [] := hatn
      rw [if_pos hane, if_pos hq1.2]
      have hjoin := joinSpace_append _ _ htne hane
      simp only [build_term] at hq1 ⊢
      rw [← hjoin, hclean.1]
      simp [hclean.2]

theorem create_query_none_branch (env : Env) (title : Option String)
    (authors : Option (List String)) (ids : List (String × String))
    (hb : (alLookup ids "isbn").bind env.checkIsbn = none)
    (hd : alLookup ids "douban" = none)
    (ht : env.titleTokens title = [])
    (ha : env.authorTokens authors = []) :
    create_query env title authors ids = none := by
  unfold create_query
  rw [hb, hd]
  simp only
  by_cases hcond : truthyStr title = true ∨ truthyList authors = true
  · rw [if_pos hcond, ht, ha]
    simp [pyStrip, stripData]
  · rw [if_neg hcond]
    simp [pyStrip, stripData]

/-! ## Concrete environment used by the witnesses -/

/-- A small executable environment for evaluating the model on concrete
inputs. -/
def testEnv : Env where
  checkIsbn := fun s => if s = "9787536692930" then some s else none
  titleTokens := fun t =>
    match t with
    | some s => if s = "" then [] else [s]
    | none => []
  authorTokens := fun a =>
    match a with
    | some (x :: _) => if x = "" then [] else [x]
    | _ => []
  urlencodeQ := fun q => "q=" ++ q
  searchFetch := fun _ => .ok "RAW"
  parseJson := fun _ => .ok { items := some ["E1"], whole := "W" }
  extractEntry := fun e =>
    if e = "E1" then some ("URL1", "SanTi", "2567698") else none
  fetchParse := fun _ => .error ()
  findPublisher := fun _ => none
  findSubtitle := fun _ => none
  findPubdate := fun _ => none
  findSeries := fun _ => none
  parseDate := fun _ => none
  parseFloat := fun _ => none
  cleanMeta := fun m => m
  sortResults := fun l => l
  fetchCover := fun _ => .ok "IMGDATA"

/-! ## Claim C2 -/

/-- C2: `create_query` prefers a valid ISBN as the whole query, then the
douban catalog ID, then the space-joined title tokens followed by the
first author's tokens; the URL is the fixed search base plus the
URL-encoded query; and the result is `None` exactly when no valid ISBN,
no catalog ID, no title token and no author token is available.  The
hypotheses say that calibre's `check_isbn` and tokenizers return clean
(stripped, nonempty) strings and return nothing on missing input. -/
theorem create_query_spec (env : Env) (title : Option String)
    (authors : Option (List String)) (ids : List (String × String))
    (hIsbn : ∀ s i, alLookup ids "isbn" = some s → env.checkIsbn s = some i →
      cleanStr i)
    (hSubj : ∀ s, alLookup ids "douban" = some s → cleanStr s)
    (hTitleTok : ∀ t ∈ env.titleTokens title, cleanStr t)
    (hAuthTok : ∀ t ∈ env.authorTokens authors, cleanStr t)
    (hTitleNone : truthyStr title = false → env.titleTokens title = [])
    (hAuthNone : truthyList authors = false → env.authorTokens authors = []) :
    (∀ i, (alLookup ids "isbn").bind env.checkIsbn = some i →
      create_query env title authors ids =
        some (BASE_URL ++ env.urlencodeQ i)) ∧
    ((alLookup ids "isbn").bind env.checkIsbn = none →
      ∀ s, alLookup ids "douban" = some s →
      create_query env title authors ids =
        some (BASE_URL ++ env.urlencodeQ s)) ∧
    ((alLookup ids "isbn").bind env.checkIsbn = none →
      alLookup ids "douban" = none →
      env.titleTokens title ++ env.authorTokens authors ≠ [] →
      create_query env title authors ids = some (BASE_URL ++ env.urlencodeQ
        (joinSpace (env.titleTokens title ++ env.authorTokens authors)))) ∧
    (create_query env title authors ids = none ↔
      ((alLookup ids "isbn").bind env.checkIsbn = none ∧
       alLookup ids "douban" = none ∧
       env.titleTokens title = [] ∧ env.authorTokens authors = [])) := by
  refine ⟨?_, ?_, ?_, ?_⟩
  · intro i hb
    obtain ⟨s, hs, hcs⟩ := Option.bind_eq_some.mp hb
    exact create_query_isbn_branch env title authors ids i hb (hIsbn s i hs hcs)
  · intro hb s hd
    exact create_query_subject_branch env title authors ids s hb hd (hSubj s hd)
  · intro hb hd hne
    exact create_query_tokens_branch env title authors ids hb hd
      hTitleTok hAuthTok hTitleNone hAuthNone hne
  · constructor
    · intro hnone
      have hb : (alLookup ids "isbn").bind env.checkIsbn = none := by
        cases hbi : (alLookup ids "isbn").bind env.checkIsbn with
        | none => rfl
        | some i =>
          obtain ⟨s, hs, hcs⟩ := Option.bind_eq_some.mp hbi
          rw [create_query_isbn_branch env title authors ids i hbi
            (hIsbn s i hs hcs)] at hnone
          exact absurd hnone (by simp)
      have hd : alLookup ids "douban" = none := by
        cases hdd : alLookup ids "douban" with
        | none => rfl
        | some s =>
          rw [create_query_subject_branch env title authors ids s hb hdd
            (hSubj s hdd)] at hnone
          exact absurd hnone (by simp)
      have htok : env.titleTokens title ++ env.authorTokens authors = [] := by
        by_contra hne
        rw [create_query_tokens_branch env title authors ids hb hd
          hTitleTok hAuthTok hTitleNone hAuthNone hne] at hnone
        exact absurd hnone (by simp)
      obtain ⟨h1, h2⟩ := List.append_eq_nil.mp htok
      exact ⟨hb, hd, h1, h2⟩
    · rintro ⟨hb, hd, h1, h2⟩
      exact create_query_none_branch env title authors ids hb hd h1 h2

/-- C2 witness: a concrete title-plus-author query. -/
theorem create_query_spec_witness :
    create_query testEnv (some "santi") (some ["liucixin"]) [] =
      some (BASE_URL ++ testEnv.urlencodeQ (joinSpace
        (testEnv.titleTokens (some "santi") ++
         testEnv.authorTokens (some ["liucixin"])))) := by
  have h := create_query_spec testEnv (some "santi") (some ["liucixin"]) []
    (by intro s i hs hc; simp [alLookup] at hs)
    (by intro s hs; simp [alLookup] at hs)
    (by decide)
    (by decide)
    (by decide)
    (by decide)
  exact h.2.2.1 (by decide) (by decide) (by decide)

/-! ## Claim C3 -/

/-- C3: `get_book_url` returns the detail-page URL built from the fixed
template when the identifiers carry a douban ID, and nothing when they do
not. -/
theorem get_book_url_spec (ids : List (String × String)) :
    (∀ db, alLookup ids "douban" = some db →
      get_book_url ids = some ("douban", db, doubanBookUrl db)) ∧
    (alLookup ids "douban" = none → get_book_url ids = none) := by
  constructor
  · intro db hdb
    simp [get_book_url, hdb]
  · intro hn
    simp [get_book_url, hn]

/-- C3 witness: a present and an absent douban ID. -/
theorem get_book_url_spec_witness :
    get_book_url [("douban", "2567698")] =
      some ("douban", "2567698", doubanBookUrl "2567698") ∧
    get_book_url [] = none := by
  constructor
  · exact (get_book_url_spec [("douban", "2567698")]).1 "2567698" (by decide)
  · exact (get_book_url_spec []).2 (by decide)

/-! ## Claim C8 -/

/-- C8: once the entry regex has produced a nonempty title and a catalog
ID, a failure to fetch or parse the detail page neither raises nor
discards the entry: `to_metadata` returns a partial record carrying
exactly the title, the douban ID and the language `Chinese`, with every
detail-page field left at its default. -/
theorem to_metadata_partial_on_fetch_failure (env : Env) (e : String)
    (url title sid : String)
    (hext : env.extractEntry e = some (url, title, sid))
    (htitle : title ≠ "")
    (hfp : env.fetchParse url = .error ()) :
    to_metadata env e =
      ⟨.ok (some { title := title, douban_id := sid,
                   language := some "Chinese" }), [url]⟩ := by
  unfold to_metadata
  rw [hext]
  simp only
  rw [if_neg htitle, hfp]

/-- C8 witness: the fetch of `testEnv` always fails, so the concrete entry
yields the partial record. -/
theorem to_metadata_partial_on_fetch_failure_witness :
    to_metadata testEnv "E1" =
      ⟨.ok (some { title := "SanTi", douban_id := "2567698",
                   language := some "Chinese" }), ["URL1"]⟩ :=
  to_metadata_partial_on_fetch_failure testEnv "E1" "URL1" "SanTi" "2567698"
    (by decide) (by decide) rfl

/-! ## Sortedness facts for `sorted(isbns, key=len)` -/

instance : IsTotal String lenLe := ⟨fun a b => Nat.le_total a.length b.length⟩

instance : IsTrans String lenLe := ⟨fun _ _ _ hab hbc => Nat.le_trans hab hbc⟩

theorem sorted_le_getLastD (l : List String)
    (hs : List.Sorted lenLe l) : ∀ x ∈ l, lenLe x (l.getLastD "") := by
  induction l with
  | nil => simp
  | cons a t ih =>
    rw [List.sorted_cons] at hs
    intro x hx
    cases t with
    | nil =>
      have hxa : x = a := by simpa using hx
      subst hxa
      exact Nat.le_refl _
    | cons b s =>
      have hgl : (a :: b :: s).getLastD "" = (b :: s).getLastD "" := by
        rw [List.getLastD_cons]
        exact getLastD_irrel _ _ _ (by simp)
      rw [hgl]
      rcases List.mem_cons.mp hx with rfl | hxt
      · exact hs.1 _ (getLastD_mem (b :: s) "" (by simp))
      · exact ih hs.2 x hxt

/-- The last element of `sorted(isbns, key=len)` is a member of maximal
length. -/
theorem sortedByLen_getLastD_max (l : List String) (hne : l ≠ []) :
    (sortedByLen l).getLastD "" ∈ l ∧
    ∀ x ∈ l, x.length ≤ ((sortedByLen l).getLastD "").length := by
  have hperm : (sortedByLen l).Perm l := List.perm_insertionSort lenLe l
  have hsne : sortedByLen l ≠ [] := by
    intro h
    rw [h] at hperm
    exact hne (hperm.nil_eq.symm)
  have hsorted : List.Sorted lenLe (sortedByLen l) :=
    List.sorted_insertionSort lenLe l
  constructor
  · exact hperm.mem_iff.mp (getLastD_mem _ _ hsne)
  · intro x hx
    exact sorted_le_getLastD _ hsorted x (hperm.mem_iff.mpr hx)

/-- `str.split` on an explicit separator never yields an empty list. -/
theorem splitCharAux_ne_nil (c : Char) (l acc : List Char) :
    splitCharAux c l acc ≠ [] := by
  induction l generalizing acc with
  | nil => simp [splitCharAux]
  | cons x xs ih =>
    unfold splitCharAux
    by_cases hx : x = c
    · simp [hx]
    · simp only [if_neg hx]
      exact ih _

theorem pySplitChar_ne_nil (c : Char) (s : String) : pySplitChar c s ≠ [] :=
  splitCharAux_ne_nil c s.data []

/-! ## Claim C10 -/

/-- C10: any metadata record that `to_metadata` builds from a
successfully fetched detail page has a non-empty authors list
(`['Unknown']` when no author was extracted, otherwise the extracted
author string split on `、`), stores only checksum-valid ISBNs, and when
ISBNs were stored its primary ISBN is one of maximal length among them. -/
theorem to_metadata_success_invariants (env : Env) (e : String)
    (url title sid : String) (page : DetailPage) (mi : Metadata)
    (hext : env.extractEntry e = some (url, title, sid))
    (hfp : env.fetchParse url = .ok page)
    (hres : (to_metadata env e).res = .ok (some mi)) :
    mi.authors ≠ [] ∧
    (page.authorsMeta = [] → mi.authors = ["Unknown"]) ∧
    (∀ a rest, page.authorsMeta = a :: rest →
      mi.authors = pySplitChar '、' a) ∧
    (∀ s ∈ mi.all_isbns, (env.checkIsbn s).isSome = true) ∧
    (mi.all_isbns ≠ [] → ∃ m, mi.isbn = some m ∧ m ∈ mi.all_isbns ∧
      ∀ x ∈ mi.all_isbns, x.length ≤ m.length) := by
  unfold to_metadata at hres
  rw [hext] at hres
  simp only at hres
  by_cases htitle : title = ""
  · rw [if_pos htitle] at hres
    simp at hres
  rw [if_neg htitle, hfp] at hres
  simp only at hres
  rcases hinfo : page.infoDivs with _ | ⟨info, infos⟩ <;> rw [hinfo] at hres
  · simp at hres
  rcases hcov : page.coverMeta with _ | ⟨cover_url, covs⟩ <;>
    rw [hcov] at hres
  · simp at hres
  rcases hiv : page.isbnMeta with _ | ⟨iv, ivs⟩ <;> rw [hiv] at hres
  · simp at hres
  rcases hrt : page.ratingTexts with _ | ⟨rt, rts⟩ <;> rw [hrt] at hres
  · simp at hres
  simp only [ToMetaRun.res] at hres
  rw [Except.ok.injEq, Option.some.injEq] at hres
  subst hres
  refine ⟨?_, ?_, ?_, ?_, ?_⟩
  · -- authors never empty
    show (match page.authorsMeta with
      | [] => ["Unknown"]
      | a :: _ => pySplitChar '、' a) ≠ []
    cases page.authorsMeta with
    | nil => simp
    | cons a rest => exact pySplitChar_ne_nil '、' a
  · intro ham
    show (match page.authorsMeta with
      | [] => ["Unknown"]
      | a :: _ => pySplitChar '、' a) = ["Unknown"]
    rw [ham]
  · intro a rest ham
    show (match page.authorsMeta with
      | [] => ["Unknown"]
      | a :: _ => pySplitChar '、' a) = pySplitChar '、' a
    rw [ham]
  · -- the stored ISBN list is checksum-filtered
    intro s hs
    simp only [Metadata.all_isbns] at hs
    cases iv with
    | s v =>
      simp only at hs
      by_cases hv : (env.checkIsbn v).isSome = true
      · rw [if_pos hv] at hs
        have : s = v := by simpa using hs
        rw [this]
        exact hv
      · rw [if_neg hv] at hs
        simp at hs
    | l vs =>
      simp only at hs
      exact (List.mem_filter.mp hs).2
  · -- the primary ISBN has maximal length
    intro hne
    simp only [Metadata.all_isbns, Metadata.isbn] at hne ⊢
    rw [if_neg hne]
    obtain ⟨hmem, hmax⟩ := sortedByLen_getLastD_max _ hne
    exact ⟨_, rfl, hmem, hmax⟩

/-- A concrete parsed detail page for evaluating the success path. -/
def douPage0 : DetailPage where
  infoDivs := ["INFO"]
  authorsMeta := ["A、B"]
  descriptionStr := "desc"
  coverMeta := ["http://img/x.jpg"]
  isbnMeta := [.s "9787536692930"]
  ratingTexts := [some "8.8"]
  tagsStr := "sf\nnovel"

/-- `testEnv` with a succeeding detail-page fetch. -/
def testEnvOk : Env := { testEnv with fetchParse := fun _ => .ok douPage0 }

/-- The record `to_metadata` produces from `douPage0`. -/
def douM0 : Metadata where
  title := "SanTi"
  douban_id := "2567698"
  language := some "Chinese"
  authors := ["A", "B"]
  comments := some "desc"
  isbn := some "9787536692930"
  all_isbns := ["9787536692930"]
  tags := ["sf", "novel"]
  rating := some 0
  has_douban_cover := some (some "http://img/x.jpg")

/-- C10 witness: the invariants instantiated on a concrete success run. -/
theorem to_metadata_success_invariants_witness :
    douM0.authors ≠ [] ∧
    (douPage0.authorsMeta = [] → douM0.authors = ["Unknown"]) ∧
    (∀ a rest, douPage0.authorsMeta = a :: rest →
      douM0.authors = pySplitChar '、' a) ∧
    (∀ s ∈ douM0.all_isbns, (testEnvOk.checkIsbn s).isSome = true) ∧
    (douM0.all_isbns ≠ [] → ∃ m, douM0.isbn = some m ∧ m ∈ douM0.all_isbns ∧
      ∀ x ∈ douM0.all_isbns, x.length ≤ m.length) :=
  to_metadata_success_invariants testEnvOk "E1" "URL1" "SanTi" "2567698"
    douPage0 douM0 rfl rfl rfl

/-! ## Loop lemmas for `get_all_details` -/

/-- With the abort flag never set, the loop appends to the queue, in entry
order, exactly the cleaned records of the entries whose parse yields a
metadata record whose `has_douban_cover` attribute was assigned (i.e. the
full-success records), each stamped with its `enumerate` index; partial
records raise when that attribute is read and are skipped. -/
theorem get_all_details_queue_eq (env : Env) (abortAt : Nat → Bool)
    (habort : ∀ n, abortAt n = false) :
    ∀ (entries : List String) (r : Nat) (st : DState),
    (get_all_details env abortAt r entries st).queue =
      st.queue ++ (List.enumFrom r entries).filterMap (fun p =>
        match (to_metadata env p.2).res with
        | .ok (some m) =>
          match m.has_douban_cover with
          | some _ =>
            some (env.cleanMeta { m with source_relevance := some p.1 })
          | none => none
        | _ => none) := by
  intro entries
  induction entries with
  | nil =>
    intro r st
    simp [get_all_details]
  | cons e rest ih =>
    intro r st
    rw [get_all_details, if_neg (by simp [habort r])]
    rw [ih (r + 1) (processEntry env r e st)]
    rw [List.enumFrom_cons]
    rw [List.filterMap_cons]
    unfold processEntry
    cases hres : (to_metadata env e).res with
    | error u =>
      simp only [hres]
    | ok o =>
      cases o with
      | none =>
        simp only [hres]
      | some m =>
        simp only [hres]
        cases hcov : m.has_douban_cover with
        | none => simp [hcov]
        | some hdc =>
          cases hdc <;> simp [hcov, List.append_assoc]

/-- Any single `to_metadata` call issues at most one detail-page GET. -/
theorem to_metadata_fetched_len (env : Env) (e : String) :
    (to_metadata env e).fetched.length ≤ 1 := by
  unfold to_metadata
  cases env.extractEntry e with
  | none => simp
  | some trip =>
    obtain ⟨url, title, sid⟩ := trip
    simp only
    by_cases ht : title = ""
    · simp [ht]
    · rw [if_neg ht]
      cases env.fetchParse url with
      | error u => simp
      | ok page =>
        rcases h1 : page.infoDivs with _ | ⟨i1, r1⟩ <;>
        rcases h2 : page.coverMeta with _ | ⟨i2, r2⟩ <;>
        rcases h3 : page.isbnMeta with _ | ⟨i3, r3⟩ <;>
        rcases h4 : page.ratingTexts with _ | ⟨i4, r4⟩ <;>
          simp [h1, h2, h3, h4]

/-- Processing a single entry never depends on the abort flag: the sample
happens after the entry. -/
theorem get_all_details_singleton (env : Env) (abortAt : Nat → Bool)
    (rel : Nat) (e : String) (st : DState) :
    get_all_details env abortAt rel [e] st = processEntry env rel e st := by
  rw [get_all_details]
  cases habort : abortAt rel <;> simp [habort, get_all_details]

/-! ## Claim C4 -/

/-- C4 (amended): with the abort flag never set, `get_all_details`
processes the entries sequentially in list order, pushing onto the result
queue exactly the (cleaned) records of the entries whose parse yields a
metadata record with its `has_douban_cover` attribute assigned — i.e.
the records built from a successfully fetched detail page — in order,
and every pushed record carries `source_relevance` equal to its entry's
zero-based list position; each entry triggers at most one detail-page
fetch; entries whose processing raises (including fetch-failure partial
records, whose unassigned `has_douban_cover` attribute raises when read)
are skipped without stopping the loop.  (`cleanMeta` is calibre's
`clean_downloaded_metadata`, which does not touch `source_relevance`.) -/
theorem get_all_details_spec (env : Env) (abortAt : Nat → Bool)
    (entries : List String) (st : DState)
    (habort : ∀ n, abortAt n = false)
    (hclean : ∀ m, (env.cleanMeta m).source_relevance = m.source_relevance) :
    (get_all_details env abortAt 0 entries st).queue =
      st.queue ++ entries.enum.filterMap (fun p =>
        match (to_metadata env p.2).res with
        | .ok (some m) =>
          match m.has_douban_cover with
          | some _ =>
            some (env.cleanMeta { m with source_relevance := some p.1 })
          | none => none
        | _ => none) ∧
    (∀ q ∈ (get_all_details env abortAt 0 entries st).queue,
      q ∈ st.queue ∨
      ∃ i e m, entries.get? i = some e ∧
        (to_metadata env e).res = .ok (some m) ∧
        m.has_douban_cover ≠ none ∧
        q = env.cleanMeta { m with source_relevance := some i } ∧
        q.source_relevance = some i) ∧
    (∀ e ∈ entries, (to_metadata env e).fetched.length ≤ 1) := by
  have heq := get_all_details_queue_eq env abortAt habort entries 0 st
  refine ⟨heq, ?_, fun e _ => to_metadata_fetched_len env e⟩
  intro q hq
  rw [heq] at hq
  rcases List.mem_append.mp hq with hin | hin
  · exact Or.inl hin
  · right
    obtain ⟨p, hp, hfp⟩ := List.mem_filterMap.mp hin
    have hget : entries.get? p.1 = some p.2 :=
      List.mem_enum_iff_get?.mp hp
    cases hres : (to_metadata env p.2).res with
    | error u =>
      rw [hres] at hfp
      simp at hfp
    | ok o =>
      cases o with
      | none =>
        rw [hres] at hfp
        simp at hfp
      | some m =>
        rw [hres] at hfp
        simp only at hfp
        cases hcov : m.has_douban_cover with
        | none =>
          rw [hcov] at hfp
          simp at hfp
        | some hdc =>
          rw [hcov] at hfp
          simp only [Option.some.injEq] at hfp
          refine ⟨p.1, p.2, m, hget, hres, by simp [hcov], ?_, ?_⟩
          · rw [hcov]
            exact hfp.symm
          · rw [← hfp, hclean]

/-- C4 witness: two concrete entries, the second of which fails the entry
regex and is skipped, with the first record stamped relevance `0`. -/
theorem get_all_details_spec_witness :
    (get_all_details testEnvOk (fun _ => false) 0 ["E1", "BAD"]
        {}).queue =
      ({} : DState).queue ++ (["E1", "BAD"].enum.filterMap (fun p =>
        match (to_metadata testEnvOk p.2).res with
        | .ok (some m) =>
          match m.has_douban_cover with
          | some _ =>
            some (testEnvOk.cleanMeta { m with source_relevance := some p.1 })
          | none => none
        | _ => none)) ∧
    (∀ q ∈ (get_all_details testEnvOk (fun _ => false) 0 ["E1", "BAD"]
        {}).queue,
      q ∈ ({} : DState).queue ∨
      ∃ i e m, ["E1", "BAD"].get? i = some e ∧
        (to_metadata testEnvOk e).res = .ok (some m) ∧
        m.has_douban_cover ≠ none ∧
        q = testEnvOk.cleanMeta { m with source_relevance := some i } ∧
        q.source_relevance = some i) ∧
    (∀ e ∈ ["E1", "BAD"], (to_metadata testEnvOk e).fetched.length ≤ 1) :=
  get_all_details_spec testEnvOk (fun _ => false) ["E1", "BAD"] {}
    (fun _ => rfl) (fun _ => rfl)

/-- C4 counterexample to the claim as originally stated: the entry's
parse yields a metadata record (`to_metadata` returns the fetch-failure
partial record), yet `get_all_details` pushes nothing onto the queue —
reading the never-assigned `has_douban_cover` attribute raises and the
bare `except` skips the `result_queue.put`. -/
theorem get_all_details_partial_not_queued :
    (to_metadata testEnv "E1").res =
      .ok (some { title := "SanTi", douban_id := "2567698",
                  language := some "Chinese" }) ∧
    (get_all_details testEnv (fun _ => false) 0 ["E1"] {}).queue = [] :=
  ⟨rfl, rfl⟩

/-! ## Cache lemmas -/

theorem alLookup_alInsert (k v i : String) (l : List (String × String)) :
    alLookup (alInsert k v l) i = if k = i then some v else alLookup l i := by
  by_cases h : k = i <;> simp [alLookup, alInsert, List.find?_cons, h]

theorem alLookup_foldl_alInsert (db : String) :
    ∀ (l : List String) (m0 : List (String × String)) (i : String),
    (alLookup m0 i = some db ∨ i ∈ l) →
    alLookup (l.foldl (fun mm x => alInsert x db mm) m0) i = some db := by
  intro l
  induction l with
  | nil =>
    intro m0 i h
    rcases h with h | h
    · exact h
    · simp at h
  | cons x xs ih =>
    intro m0 i h
    rw [List.foldl_cons]
    apply ih
    rcases h with h | h
    · left
      rw [alLookup_alInsert]
      by_cases hxi : x = i <;> simp [hxi, h]
    · rcases List.mem_cons.mp h with rfl | hxs
      · left
        rw [alLookup_alInsert]
        simp
      · right
        exact hxs

/-! ## Claim C6 -/

/-- C6: after an entry yielding a record with a douban cover is processed,
the cover URL is cached under the catalog ID and every stored ISBN is
cached as mapping to that ID, so `get_cached_cover_url` finds the cover
URL from either the catalog ID or any of those ISBNs; and
`get_cached_cover_url` returns nothing when neither a douban ID nor a
cached ISBN mapping is available. -/
theorem caching_round_trip (env : Env) (abortAt : Nat → Bool) (rel : Nat)
    (e : String) (st : DState) (m : Metadata) (u : String)
    (hres : (to_metadata env e).res = .ok (some m))
    (hcov : m.has_douban_cover = some (some u)) :
    (get_cached_cover_url
        (get_all_details env abortAt rel [e] st).isbnMap
        (get_all_details env abortAt rel [e] st).coverMap
        [("douban", m.douban_id)] = some u) ∧
    (∀ i ∈ m.all_isbns,
      get_cached_cover_url
        (get_all_details env abortAt rel [e] st).isbnMap
        (get_all_details env abortAt rel [e] st).coverMap
        [("isbn", i)] = some u) ∧
    (∀ (isbnMap coverMap ids : List (String × String)),
      alLookup ids "douban" = none →
      (∀ i, alLookup ids "isbn" = some i → alLookup isbnMap i = none) →
      get_cached_cover_url isbnMap coverMap ids = none) := by
  rw [get_all_details_singleton]
  unfold processEntry
  rw [hres]
  simp only [hcov]
  refine ⟨?_, ?_, ?_⟩
  · show get_cached_cover_url _ (alInsert m.douban_id u st.coverMap)
      [("douban", m.douban_id)] = some u
    unfold get_cached_cover_url
    have h1 : alLookup [("douban", m.douban_id)] "douban" =
        some m.douban_id := by
      simp [alLookup]
    rw [h1]
    simp only
    rw [alLookup_alInsert]
    simp
  · intro i hi
    show get_cached_cover_url
      (List.foldl (fun mm x => alInsert x m.douban_id mm) st.isbnMap
        m.all_isbns)
      (alInsert m.douban_id u st.coverMap) [("isbn", i)] = some u
    unfold get_cached_cover_url
    have h1 : alLookup [("isbn", i)] "douban" = none := by
      simp [alLookup]
    have h2 : alLookup [("isbn", i)] "isbn" = some i := by
      simp [alLookup]
    rw [h1]
    simp only
    rw [h2]
    show (match alLookup (List.foldl (fun mm x => alInsert x m.douban_id mm)
        st.isbnMap m.all_isbns) i with
      | some d => alLookup (alInsert m.douban_id u st.coverMap) d
      | none => none) = some u
    rw [alLookup_foldl_alInsert m.douban_id m.all_isbns st.isbnMap i
      (Or.inr hi)]
    show alLookup (alInsert m.douban_id u st.coverMap) m.douban_id = some u
    rw [alLookup_alInsert]
    simp
  · intro isbnMap coverMap ids h1 h2
    unfold get_cached_cover_url
    rw [h1]
    simp only
    cases hisbn : alLookup ids "isbn" with
    | none => simp
    | some i =>
      show (match alLookup isbnMap i with
        | some d => alLookup coverMap d
        | none => none) = none
      rw [h2 i hisbn]

/-- C6 witness: the concrete success run caches the cover under both the
catalog ID and the ISBN. -/
theorem caching_round_trip_witness :
    (get_cached_cover_url
        (get_all_details testEnvOk (fun _ => false) 0 ["E1"] {}).isbnMap
        (get_all_details testEnvOk (fun _ => false) 0 ["E1"] {}).coverMap
        [("douban", douM0.douban_id)] = some "http://img/x.jpg") ∧
    (∀ i ∈ douM0.all_isbns,
      get_cached_cover_url
        (get_all_details testEnvOk (fun _ => false) 0 ["E1"] {}).isbnMap
        (get_all_details testEnvOk (fun _ => false) 0 ["E1"] {}).coverMap
        [("isbn", i)] = some "http://img/x.jpg") ∧
    (∀ (isbnMap coverMap ids : List (String × String)),
      alLookup ids "douban" = none →
      (∀ i, alLookup ids "isbn" = some i → alLookup isbnMap i = none) →
      get_cached_cover_url isbnMap coverMap ids = none) :=
  caching_round_trip testEnvOk (fun _ => false) 0 "E1" {} douM0
    "http://img/x.jpg" rfl rfl

/-! ## Claim C7 -/

/-- With the abort flag first observed set at relevance `r + n`, the loop
result only depends on the first `n + 1` entries. -/
theorem get_all_details_take_abort (env : Env) (abortAt : Nat → Bool) :
    ∀ (n : Nat) (entries : List String) (r : Nat) (st : DState),
    (∀ j, r ≤ j → j < r + n → abortAt j = false) →
    abortAt (r + n) = true →
    get_all_details env abortAt r entries st =
      get_all_details env abortAt r (entries.take (n + 1)) st := by
  intro n
  induction n with
  | zero =>
    intro entries r st hprev hk
    cases entries with
    | nil => rfl
    | cons e rest =>
      simp only [List.take_succ_cons, List.take_zero]
      rw [get_all_details, get_all_details]
      have hk2 : abortAt r = true := hk
      rw [if_pos (by simp [hk2]), if_pos (by simp [hk2])]
  | succ n ih =>
    intro entries r st hprev hk
    cases entries with
    | nil => rfl
    | cons e rest =>
      have hr : abortAt r = false := hprev r (Nat.le_refl r) (by omega)
      simp only [List.take_succ_cons]
      rw [get_all_details, get_all_details]
      rw [if_neg (by simp [hr]), if_neg (by simp [hr])]
      refine ih rest (r + 1) (processEntry env r e st)
        (fun j h1 h2 => hprev j (by omega) (by omega)) ?_
      have harith : r + 1 + n = r + (n + 1) := by omega
      rw [harith]
      exact hk

/-- C7: once the abort flag is set, nothing further is processed:
`get_all_details` behaves as if the entry list stopped right after the
entry in progress, and `download_cover` returns without issuing the cover
GET and without putting anything on the queue, both when abort is
observed right after the inner identify and when it is observed at the
pre-download check. -/
theorem abort_stops_processing (env : Env) (abortAt : Nat → Bool)
    (entries : List String) (st : DState) (k : Nat) (abortRetry : Bool)
    (title : Option String) (authors : Option (List String))
    (ids : List (String × String))
    (hprev : ∀ j, j < k → abortAt j = false) (hk : abortAt k = true) :
    get_all_details env abortAt 0 entries st =
      get_all_details env abortAt 0 (entries.take (k + 1)) st ∧
    (∀ a1 : Bool,
      (download_cover env abortRetry abortAt a1 true title authors ids
        st).fetched = none ∧
      (download_cover env abortRetry abortAt a1 true title authors ids
        st).covers = []) ∧
    (get_cached_cover_url st.isbnMap st.coverMap ids = none →
      ∀ a2 : Bool,
      (download_cover env abortRetry abortAt true a2 title authors ids
        st).fetched = none ∧
      (download_cover env abortRetry abortAt true a2 title authors ids
        st).covers = []) := by
  refine ⟨?_, ?_, ?_⟩
  · have h0 := get_all_details_take_abort env abortAt k entries 0 st
      (fun j h1 h2 => hprev j (by omega)) (by simpa using hk)
    exact h0
  · intro a1
    cases hc : get_cached_cover_url st.isbnMap st.coverMap ids with
    | none =>
      cases a1 with
      | true => constructor <;> simp [download_cover, hc]
      | false =>
        cases hscan : scanResults
          ((identify env abortRetry abortAt { st with queue := [] }
            title authors ids).1)
          (env.sortResults
            ((identify env abortRetry abortAt { st with queue := [] }
              title authors ids).1).queue) with
        | none => constructor <;> simp [download_cover, hc, hscan]
        | some u => constructor <;> simp [download_cover, hc, hscan]
    | some u => constructor <;> simp [download_cover, hc]
  · intro hc a2
    constructor <;> simp [download_cover, hc]

/-- C7 witness: abort observed after the first entry stops a two-entry
run, and both download checkpoints bail out. -/
theorem abort_stops_processing_witness :
    get_all_details testEnvOk (fun n => decide (n = 0)) 0 ["E1", "E1"] {} =
      get_all_details testEnvOk (fun n => decide (n = 0)) 0
        (["E1", "E1"].take 1) {} ∧
    (∀ a1 : Bool,
      (download_cover testEnvOk false (fun n => decide (n = 0)) a1 true
        (some "t") (some ["a"]) [] {}).fetched = none ∧
      (download_cover testEnvOk false (fun n => decide (n = 0)) a1 true
        (some "t") (some ["a"]) [] {}).covers = []) ∧
    (get_cached_cover_url ({} : DState).isbnMap ({} : DState).coverMap
        [] = none →
      ∀ a2 : Bool,
      (download_cover testEnvOk false (fun n => decide (n = 0)) true a2
        (some "t") (some ["a"]) [] {}).fetched = none ∧
      (download_cover testEnvOk false (fun n => decide (n = 0)) true a2
        (some "t") (some ["a"]) [] {}).covers = []) :=
  abort_stops_processing testEnvOk (fun n => decide (n = 0)) ["E1", "E1"]
    {} 0 false (some "t") (some ["a"]) []
    (fun j hj => absurd hj (by omega)) (by decide)

/-! ## Claim C9 -/

/-- C9: when the search succeeds but yields an empty entry list,
`identify` re-runs itself exactly once with the identifiers dropped,
provided identifiers, title and authors were all supplied (truthy) and
the abort flag is unset at the check; if any of those conditions fails,
no retry happens and the empty list is processed as-is (leaving the
state unchanged); and a run without identifiers never retries, whatever
its search returns. -/
theorem identify_retry_spec (env : Env) (abortRetry : Bool)
    (abortAt : Nat → Bool) (st : DState) (title : Option String)
    (authors : Option (List String)) (ids : List (String × String))
    (query raw : String) (j : SearchJson)
    (hq : create_query env title authors ids = some query)
    (hf : env.searchFetch query = .ok raw)
    (hj : env.parseJson raw = .ok j)
    (hitems : j.items = some []) :
    (ids ≠ [] → truthyStr title = true → truthyList authors = true →
      abortRetry = false →
      identify env abortRetry abortAt st title authors ids =
        identify env abortRetry abortAt st title authors []) ∧
    ((ids = [] ∨ truthyStr title = false ∨ truthyList authors = false ∨
        abortRetry = true) →
      identify env abortRetry abortAt st title authors ids = (st, none)) ∧
    (∀ (q2 r2 : String) (j2 : SearchJson),
      create_query env title authors [] = some q2 →
      env.searchFetch q2 = .ok r2 →
      env.parseJson r2 = .ok j2 →
      identify env abortRetry abortAt st title authors [] =
        (get_all_details env abortAt 0 (entriesOf j2) st, none)) := by
  have hent : entriesOf j = [] := by simp [entriesOf, hitems]
  refine ⟨?_, ?_, ?_⟩
  · intro h1 h2 h3 h4
    conv_lhs => rw [identify]
    rw [hq]
    simp only
    rw [hf]
    simp only
    rw [hj]
    simp only
    rw [dif_pos ⟨hent, h1, h2, h3, h4⟩]
  · intro hfail
    rw [identify]
    rw [hq]
    simp only
    rw [hf]
    simp only
    rw [hj]
    simp only
    rw [dif_neg ?_]
    · rw [hent]
      rfl
    · rintro ⟨g1, g2, g3, g4, g5⟩
      rcases hfail with h | h | h | h
      · exact g2 h
      · rw [h] at g3; cases g3
      · rw [h] at g4; cases g4
      · rw [h] at g5; cases g5
  · intro q2 r2 j2 hq2 hf2 hj2
    rw [identify]
    rw [hq2]
    simp only
    rw [hf2]
    simp only
    rw [hj2]
    simp only
    rw [dif_neg ?_]
    · rintro ⟨g1, g2, g3, g4, g5⟩
      exact g2 rfl

/-- `testEnv` whose search parses to an empty `items` list. -/
def testEnvEmpty : Env :=
  { testEnv with parseJson := fun _ => .ok { items := some [], whole := "W" } }

/-- C9 witness: a concrete empty search with identifiers, title and
authors supplied retries without the identifiers. -/
theorem identify_retry_spec_witness :
    identify testEnvEmpty false (fun _ => false) {} (some "t") (some ["a"])
        [("douban", "X")] =
      identify testEnvEmpty false (fun _ => false) {} (some "t")
        (some ["a"]) [] :=
  (identify_retry_spec testEnvEmpty false (fun _ => false) {} (some "t")
    (some ["a"]) [("douban", "X")]
    "https://www.douban.com/j/search?t=book&p=0&q=X" "RAW"
    { items := some [], whole := "W" } rfl rfl rfl rfl).1
    (by simp) rfl rfl rfl

/-! ## Claim C5 -/

/-- C5: `download_cover` re-runs the identify flow exactly when no cover
URL is cached for the supplied identifiers; whenever a cached URL exists
(initially, or found via the identify results after the re-run) and the
cover GET returns nonempty bytes, those bytes are put on the result
queue; and when no cover URL can be found nothing is downloaded and
nothing is queued. -/
theorem download_cover_spec (env : Env) (abortRetry : Bool)
    (abortAt : Nat → Bool) (title : Option String)
    (authors : Option (List String)) (ids : List (String × String))
    (st : DState) :
    (∀ a1 a2 : Bool,
      ((download_cover env abortRetry abortAt a1 a2 title authors ids
          st).ranIdentify = true ↔
        get_cached_cover_url st.isbnMap st.coverMap ids = none)) ∧
    (∀ (u c : String) (a1 : Bool),
      get_cached_cover_url st.isbnMap st.coverMap ids = some u →
      env.fetchCover u = .ok c → c ≠ "" →
      (download_cover env abortRetry abortAt a1 false title authors ids
          st).fetched = some u ∧
      (download_cover env abortRetry abortAt a1 false title authors ids
          st).covers = [c]) ∧
    (∀ (u c : String),
      get_cached_cover_url st.isbnMap st.coverMap ids = none →
      scanResults
        ((identify env abortRetry abortAt { st with queue := [] }
          title authors ids).1)
        (env.sortResults
          ((identify env abortRetry abortAt { st with queue := [] }
            title authors ids).1).queue) = some u →
      env.fetchCover u = .ok c → c ≠ "" →
      (download_cover env abortRetry abortAt false false title authors ids
          st).fetched = some u ∧
      (download_cover env abortRetry abortAt false false title authors ids
          st).covers = [c]) ∧
    (∀ a2 : Bool,
      get_cached_cover_url st.isbnMap st.coverMap ids = none →
      scanResults
        ((identify env abortRetry abortAt { st with queue := [] }
          title authors ids).1)
        (env.sortResults
          ((identify env abortRetry abortAt { st with queue := [] }
            title authors ids).1).queue) = none →
      (download_cover env abortRetry abortAt false a2 title authors ids
          st).fetched = none ∧
      (download_cover env abortRetry abortAt false a2 title authors ids
          st).covers = []) := by
  refine ⟨?_, ?_, ?_, ?_⟩
  · intro a1 a2
    cases hc : get_cached_cover_url st.isbnMap st.coverMap ids with
    | none =>
      cases a1 with
      | true => simp [download_cover, hc]
      | false =>
        cases hscan : scanResults
          ((identify env abortRetry abortAt { st with queue := [] }
            title authors ids).1)
          (env.sortResults
            ((identify env abortRetry abortAt { st with queue := [] }
              title authors ids).1).queue) with
        | none => simp [download_cover, hc, hscan]
        | some u =>
          cases a2 with
          | true => simp [download_cover, hc, hscan]
          | false =>
            cases hf : env.fetchCover u with
            | ok c =>
              by_cases hcc : c = "" <;>
                simp [download_cover, hc, hscan, hf, hcc]
            | error e => simp [download_cover, hc, hscan, hf]
    | some u =>
      cases a2 with
      | true => simp [download_cover, hc]
      | false =>
        cases hf : env.fetchCover u with
        | ok c =>
          by_cases hcc : c = "" <;> simp [download_cover, hc, hf, hcc]
        | error e => simp [download_cover, hc, hf]
  · intro u c a1 hc hf hcc
    constructor <;> simp [download_cover, hc, hf, hcc]
  · intro u c hc hscan hf hcc
    constructor <;> simp [download_cover, hc, hscan, hf, hcc]
  · intro a2 hc hscan
    constructor <;> simp [download_cover, hc, hscan]

/-- A state with a cover URL already cached for catalog ID `X`. -/
def covSt : DState where
  isbnMap := []
  coverMap := [("X", "http://img/c.jpg")]
  queue := []

/-- C5 witness: with a cached URL no identify runs and the bytes are
queued; with empty caches identify is re-run. -/
theorem download_cover_spec_witness :
    ((download_cover testEnv false (fun _ => false) false false (some "t")
        (some ["a"]) [("douban", "X")] covSt).ranIdentify = true ↔
      get_cached_cover_url covSt.isbnMap covSt.coverMap
        [("douban", "X")] = none) ∧
    (download_cover testEnv false (fun _ => false) false false (some "t")
        (some ["a"]) [("douban", "X")] covSt).fetched =
      some "http://img/c.jpg" ∧
    (download_cover testEnv false (fun _ => false) false false (some "t")
        (some ["a"]) [("douban", "X")] covSt).covers = ["IMGDATA"] := by
  have h := download_cover_spec testEnv false (fun _ => false) (some "t")
    (some ["a"]) [("douban", "X")] covSt
  have h2 := h.2.1 "http://img/c.jpg" "IMGDATA" false rfl rfl (by decide)
  exact ⟨h.1 false false, h2.1, h2.2⟩

end Douban
